import Mathlib

/-!
Shallow embedding of the Network-Mapper scanner
(src/rust-network-mapper.rs, with the graph builder of
src/rust-network-mapper-adv-viz.rs).

IPv4 addresses and ports are modelled as `Nat` (the program manipulates
them as `u32` / `u16`; octet extraction takes `% 256` explicitly).  The
outcome of one TCP connection attempt (`timeout(TcpStream::connect)`) is
modelled by an oracle `probe : Nat → Nat → ProbeOutcome` giving, per
(address, port) pair, either a successful connection or one of the
failure modes the code collapses into "closed".
-/

/-- Outcome of a single bounded TCP connection attempt: `connected`
models `Ok(Ok(_))`; the other constructors model the elapsed timeout
(`Err(Elapsed)`) and the connection errors (`Ok(Err(_))`). -/
inductive ProbeOutcome
  | connected
  | timedOut
  | refused
  | unreachable
deriving DecidableEq, Repr

/-- Port Probe, from `if let Ok(Ok(_)) = timeout(timeout_duration,
TcpStream::connect((ip, port))).await` in `scan_host`: the probe is a
success exactly when the connection attempt returned `Ok(Ok(_))`. -/
def port_probe (probe : Nat → Nat → ProbeOutcome) (ip port : Nat) : Bool :=
  match probe ip port with
  | ProbeOutcome.connected => true
  | ProbeOutcome.timedOut => false
  | ProbeOutcome.refused => false
  | ProbeOutcome.unreachable => false

/-- The fixed probe list `vec![21, 22, 80, 443, 3306, 5432]` of `scan_host`. -/
def ports_to_scan : List Nat := [21, 22, 80, 443, 3306, 5432]

/-- The record `ScanResult { ip, open_ports, os_guess, subnet }`. -/
structure ScanResult where
  ip : String
  open_ports : List Nat
  os_guess : String
  subnet : String
deriving DecidableEq, Repr

/-- The OS classifier `guess_os`. -/
def guess_os (open_ports : List Nat) : String :=
  if open_ports.contains 22 && open_ports.contains 80 then
    "Linux"
  else if open_ports.contains 3389 then
    "Windows"
  else
    "Unknown"

/-- Octet `k` (big-endian, `k < 4`) of a 32-bit address, as in
`Ipv4Addr::octets`. -/
def octet (k ip : Nat) : Nat := ip / 2 ^ (8 * (3 - k)) % 256

/-- Dotted-quad rendering of an address, as in `Ipv4Addr::to_string`. -/
def ipToString (ip : Nat) : String :=
  toString (octet 0 ip) ++ "." ++ toString (octet 1 ip) ++ "." ++
    toString (octet 2 ip) ++ "." ++ toString (octet 3 ip)

/-- Host Prober `scan_host`: probe the fixed port list sequentially,
accumulate the ports whose probe connected (`open_ports.push(port)`),
and build a `ScanResult` when at least one port is open.  The
`timeout_duration` argument of the source is absorbed into the `probe`
oracle, which already accounts for elapsed timeouts. -/
def scan_host (probe : Nat → Nat → ProbeOutcome) (ip : Nat) : Option ScanResult :=
  let open_ports :=
    ports_to_scan.foldl (fun acc port => if port_probe probe ip port then acc ++ [port] else acc) []
  if !open_ports.isEmpty then
    some { ip := ipToString ip
           open_ports := open_ports
           os_guess := guess_os open_ports
           subnet := toString (octet 0 ip) ++ "." ++ toString (octet 1 ip) ++ "." ++
             toString (octet 2 ip) ++ ".0/24" }
  else
    none

section BasicLemmas

/-- Pushing into an accumulator under a test is filtering. -/
theorem foldl_push_filter (p : Nat → Bool) (l acc : List Nat) :
    l.foldl (fun a x => if p x then a ++ [x] else a) acc = acc ++ l.filter p := by
  induction l generalizing acc with
  | nil => simp
  | cons x xs ih =>
    cases hp : p x <;> simp [List.filter_cons, hp, ih]

/-- Closed form of `scan_host`: the accumulated open ports are exactly
the filter of the fixed list by the probe, and the result is `some`
exactly when that filter is non-empty. -/
theorem scan_host_eq (probe : Nat → Nat → ProbeOutcome) (ip : Nat) :
    scan_host probe ip =
      (if (ports_to_scan.filter (port_probe probe ip)).isEmpty then none
       else
         some { ip := ipToString ip
                open_ports := ports_to_scan.filter (port_probe probe ip)
                os_guess := guess_os (ports_to_scan.filter (port_probe probe ip))
                subnet := toString (octet 0 ip) ++ "." ++ toString (octet 1 ip) ++ "." ++
                  toString (octet 2 ip) ++ ".0/24" }) := by
  unfold scan_host
  rw [foldl_push_filter]
  simp only [List.nil_append]
  cases h : (ports_to_scan.filter (port_probe probe ip)).isEmpty <;> simp [h]

end BasicLemmas

/-- A probe oracle under which every connection attempt is refused. -/
def probeAllClosed : Nat → Nat → ProbeOutcome := fun _ _ => ProbeOutcome.refused

/-- A probe oracle under which exactly port 22 answers, on every host. -/
def probe22 : Nat → Nat → ProbeOutcome :=
  fun _ port => if port = 22 then ProbeOutcome.connected else ProbeOutcome.refused

/-- The `ScanResult` that `scan_host` builds for host `0.0.0.0` under `probe22`. -/
def sample22 : ScanResult :=
  { ip := "0.0.0.0", open_ports := [22], os_guess := "Unknown", subnet := "0.0.0.0/24" }

/-- The classifier never says Windows when 3389 is absent from the list. -/
theorem guess_os_ne_windows (l : List Nat) (h : 3389 ∉ l) : guess_os l ≠ "Windows" := by
  have h3 : l.contains 3389 = false := by simpa using h
  unfold guess_os
  cases h1 : l.contains 22 && l.contains 80
  · rw [h3]
    decide
  · rw [if_pos rfl]
    decide

/-- C5: the OS classifier is a pure function of the open-port list:
`{22, 80} ⊆ ports` gives Linux; otherwise `3389 ∈ ports` gives Windows;
otherwise Unknown; and the answer always lies in
`{Linux, Windows, Unknown}`. -/
theorem guess_os_classifier_spec (ports : List Nat) :
    ((22 ∈ ports ∧ 80 ∈ ports) → guess_os ports = "Linux")
    ∧ (¬(22 ∈ ports ∧ 80 ∈ ports) → 3389 ∈ ports → guess_os ports = "Windows")
    ∧ (¬(22 ∈ ports ∧ 80 ∈ ports) → 3389 ∉ ports → guess_os ports = "Unknown")
    ∧ (guess_os ports = "Linux" ∨ guess_os ports = "Windows" ∨ guess_os ports = "Unknown") := by
  unfold guess_os
  by_cases h22 : (22 : Nat) ∈ ports <;> by_cases h80 : (80 : Nat) ∈ ports <;>
    by_cases h33 : (3389 : Nat) ∈ ports <;>
    simp [h22, h80, h33]

/-- C5 witness: on the list `[3389]` alone the classifier answers Windows. -/
theorem guess_os_classifier_spec_witness : guess_os [3389] = "Windows" :=
  (guess_os_classifier_spec [3389]).2.1 (by decide) (by decide)

/-- C3: `scan_host` probes exactly the fixed list `[21, 22, 80, 443,
3306, 5432]` in that order; a produced result's `open_ports` is the
subsequence of that list that connected (hence ascending, duplicate-free
along the probe list, drawn from it, and non-empty); the result is
`none` exactly when no port connected; and only the connected/closed
distinction of the probe oracle matters — every failure mode folds into
"closed" without aborting the host scan. -/
theorem scan_host_probe_spec (probe : Nat → Nat → ProbeOutcome) (ip : Nat) :
    (∀ r, scan_host probe ip = some r →
        r.open_ports = ports_to_scan.filter (port_probe probe ip)
        ∧ List.Pairwise (· < ·) r.open_ports
        ∧ (∀ p ∈ r.open_ports, p ∈ ports_to_scan ∧ port_probe probe ip p = true)
        ∧ r.open_ports ≠ [])
    ∧ (scan_host probe ip = none ↔ ∀ p ∈ ports_to_scan, port_probe probe ip p = false)
    ∧ (∀ probe2 : Nat → Nat → ProbeOutcome,
        (∀ port, port_probe probe2 ip port = port_probe probe ip port) →
        scan_host probe2 ip = scan_host probe ip) := by
  refine ⟨?_, ?_, ?_⟩
  · intro r hr
    rw [scan_host_eq] at hr
    by_cases hemp : (ports_to_scan.filter (port_probe probe ip)).isEmpty
    · simp [hemp] at hr
    · simp only [hemp, if_false] at hr
      injection hr with hr
      subst hr
      refine ⟨rfl, ?_, ?_, ?_⟩
      · have hps : List.Pairwise (· < ·) ports_to_scan := by decide
        exact hps.sublist (List.filter_sublist _)
      · intro p hp
        exact ⟨List.mem_of_mem_filter hp, List.of_mem_filter hp⟩
      · intro hnil
        have hnil2 : ports_to_scan.filter (port_probe probe ip) = [] := hnil
        apply hemp
        rw [List.isEmpty_iff]
        exact hnil2
  · rw [scan_host_eq]
    by_cases hemp : (ports_to_scan.filter (port_probe probe ip)).isEmpty
    · simp only [hemp, if_true, true_iff]
      intro p hp
      have : ports_to_scan.filter (port_probe probe ip) = [] := by
        simpa [List.isEmpty_iff] using hemp
      have := List.filter_eq_nil_iff.mp this p hp
      simpa using this
    · simp only [hemp, if_false]
      constructor
      · intro hcontra
        exact absurd hcontra (by simp)
      · intro hall
        exfalso
        apply hemp
        simp only [List.isEmpty_iff]
        exact List.filter_eq_nil_iff.mpr (fun p hp => by simp [hall p hp])
  · intro probe2 hsame
    rw [scan_host_eq, scan_host_eq]
    rw [List.filter_congr (fun p _ => hsame p)]

/-- C3 witness: under the all-refused oracle no port connects and host 5
produces no record. -/
theorem scan_host_probe_spec_witness : scan_host probeAllClosed 5 = none :=
  (scan_host_probe_spec probeAllClosed 5).2.1.mpr (by decide)

/-- C4: no `ScanResult` the Host Prober can produce is classified
Windows: 3389 is not in the fixed probe list, so the Windows branch of
the classifier is unreachable. -/
theorem os_guess_never_windows (probe : Nat → Nat → ProbeOutcome) (ip : Nat)
    (r : ScanResult) (h : scan_host probe ip = some r) :
    r.os_guess ≠ "Windows" := by
  rw [scan_host_eq] at h
  by_cases hemp : (ports_to_scan.filter (port_probe probe ip)).isEmpty
  · simp [hemp] at h
  · simp only [hemp, if_false] at h
    injection h with h
    subst h
    apply guess_os_ne_windows
    intro hmem
    have := List.mem_of_mem_filter hmem
    simp [ports_to_scan] at this

/-- C4 witness: host `0.0.0.0` under `probe22` yields `sample22`, whose
OS guess is not Windows. -/
theorem os_guess_never_windows_witness : sample22.os_guess ≠ "Windows" :=
  os_guess_never_windows probe22 0 sample22 (by decide)

/-- IP Range Expander, from `for ip in u32::from(start_ip)..=u32::from(end_ip)`
in `main`: the ascending list of addresses from `s` to `e` inclusive,
empty when `s > e`. -/
def scanRange (s e : Nat) : List Nat := List.range' s (e + 1 - s)

/-- Abnormal termination of a spawned host-scan task (tokio's
`JoinError`), as distinguished from a probe "closed" outcome. -/
inductive TaskError
  | joinFault
deriving DecidableEq, Repr

/-- Outcome of one spawned task: either its `scan_host` value, or an
abnormal termination injected by the `fault` oracle. -/
def taskResult (probe : Nat → Nat → ProbeOutcome) (fault : Nat → Option TaskError)
    (ip : Nat) : Except TaskError (Option ScanResult) :=
  match fault ip with
  | some err => Except.error err
  | none => Except.ok (scan_host probe ip)

/-- The collection loop of `main`: `for task in tasks { if let
Some(result) = task.await? { results.push(result) } }` — tasks are
awaited in submission order, the first abnormal termination propagates
through `?` and aborts the whole run. -/
def collectResults : List (Except TaskError (Option ScanResult)) →
    Except TaskError (List ScanResult)
  | [] => Except.ok []
  | Except.error err :: _ => Except.error err
  | Except.ok none :: ts => collectResults ts
  | Except.ok (some r) :: ts => (collectResults ts).map (fun l => r :: l)

/-- The scan pipeline of `main`: expand the range, run one task per
address, collect in submission order. -/
def runScan (probe : Nat → Nat → ProbeOutcome) (fault : Nat → Option TaskError)
    (s e : Nat) : Except TaskError (List ScanResult) :=
  collectResults ((scanRange s e).map (taskResult probe fault))

/-- The fault-free result list of `main`: the per-address `scan_host`
values in range order, hosts with no open port dropped. -/
def runScanOk (probe : Nat → Nat → ProbeOutcome) (s e : Nat) : List ScanResult :=
  (scanRange s e).filterMap (scan_host probe)

/-- The addresses of the range whose scan produces a record. -/
def scanIps (probe : Nat → Nat → ProbeOutcome) (s e : Nat) : List Nat :=
  (scanRange s e).filter (fun ip => (scan_host probe ip).isSome)

/-- A completion log: the tasks of the scan, listed in the order in
which they finished.  Each spawned task is identified by its address,
and its value is its deterministic `scan_host` outcome. -/
def completionLog (probe : Nat → Nat → ProbeOutcome) (perm : List Nat) :
    List (Nat × Option ScanResult) :=
  perm.map (fun ip => (ip, scan_host probe ip))

/-- Awaiting one task: resolve the task for address `ip` against the
completion log (`none` would mean the task never finishes). -/
def awaitTask (log : List (Nat × Option ScanResult)) (ip : Nat) :
    Option (Option ScanResult) :=
  (log.find? (fun q => q.1 == ip)).map Prod.snd

/-- The collection loop of `main` run against a completion log: tasks
are awaited in submission order (the order of `tasks`), never in
completion order. -/
def joinSubmissionOrder (log : List (Nat × Option ScanResult)) :
    List Nat → Option (List ScanResult)
  | [] => some []
  | ip :: ips =>
    match awaitTask log ip with
    | none => none
    | some none => joinSubmissionOrder log ips
    | some (some r) => (joinSubmissionOrder log ips).map (fun l => r :: l)

/-- Produced results carry the dotted-quad form of their address. -/
theorem scan_host_ip (probe : Nat → Nat → ProbeOutcome) (ip : Nat) (r : ScanResult)
    (h : scan_host probe ip = some r) : r.ip = ipToString ip := by
  rw [scan_host_eq] at h
  by_cases hemp : (ports_to_scan.filter (port_probe probe ip)).isEmpty
  · simp [hemp] at h
  · simp only [hemp, if_false] at h
    injection h with h
    subst h
    rfl

/-- The addresses of the emitted records, read off in order. -/
theorem runScanOk_map_ip (probe : Nat → Nat → ProbeOutcome) (l : List Nat) :
    (l.filterMap (scan_host probe)).map ScanResult.ip
      = (l.filter (fun ip => (scan_host probe ip).isSome)).map ipToString := by
  induction l with
  | nil => rfl
  | cons x xs ih =>
    cases hx : scan_host probe x with
    | none => simp [List.filterMap_cons, List.filter_cons, hx, ih]
    | some r =>
      simp [List.filterMap_cons, List.filter_cons, hx, ih, scan_host_ip probe x r hx]

/-- Awaiting a task of the log resolves to its deterministic value. -/
theorem awaitTask_completionLog (probe : Nat → Nat → ProbeOutcome) (perm : List Nat)
    (ip : Nat) (hip : ip ∈ perm) :
    awaitTask (completionLog probe perm) ip = some (scan_host probe ip) := by
  unfold awaitTask completionLog
  have hex : ∃ q ∈ perm.map (fun j => (j, scan_host probe j)), (q.1 == ip) = true := by
    exact ⟨(ip, scan_host probe ip), List.mem_map_of_mem _ hip, by simp⟩
  have hsome : (List.find? (fun q => q.1 == ip) (perm.map (fun j => (j, scan_host probe j)))).isSome := by
    rw [List.find?_isSome]
    exact hex
  obtain ⟨q, hq⟩ := Option.isSome_iff_exists.mp hsome
  have hqmem := List.mem_of_find?_eq_some hq
  have hqkey := List.find?_some hq
  obtain ⟨j, hj, hqeq⟩ := List.mem_map.mp hqmem
  rw [hq]
  have : j = ip := by
    have := hqkey
    rw [← hqeq] at this
    simpa using this
  subst this
  rw [← hqeq]
  rfl

/-- Joining in submission order returns the tasks' values in
submission order, whatever completion log produced them. -/
theorem joinSubmissionOrder_eq (log : List (Nat × Option ScanResult))
    (v : Nat → Option ScanResult) (ips : List Nat)
    (h : ∀ ip ∈ ips, awaitTask log ip = some (v ip)) :
    joinSubmissionOrder log ips = some (ips.filterMap v) := by
  induction ips with
  | nil => rfl
  | cons ip ips ih =>
    have hv := h ip (List.mem_cons_self ip ips)
    have hrest := ih (fun j hj => h j (List.mem_cons_of_mem ip hj))
    unfold joinSubmissionOrder
    rw [hv]
    cases hvi : v ip with
    | none => simp [List.filterMap_cons, hvi, hrest]
    | some r => simp [List.filterMap_cons, hvi, hrest]

/-- One step of `subnets.entry(result.subnet.clone()).or_default().push(result)`:
append the record to its subnet's bucket, creating the bucket if absent.
The map is modelled as an association list; the source's `HashMap` has
unspecified key order, and every property proved about it below is
insensitive to the order of the keys. -/
def insertGrouped : List (String × List ScanResult) → ScanResult →
    List (String × List ScanResult)
  | [], r => [(r.subnet, [r])]
  | (k, v) :: rest, r =>
    if k == r.subnet then (k, v ++ [r]) :: rest
    else (k, v) :: insertGrouped rest r

/-- The subnet grouping loop of `generate_interactive_visualization`:
`for result in results { subnets.entry(result.subnet.clone()).or_default().push(result) }`. -/
def groupBySubnet (results : List ScanResult) : List (String × List ScanResult) :=
  results.foldl insertGrouped []

/-- Reading one subnet's bucket out of the grouping. -/
def lookupGroup (m : List (String × List ScanResult)) (s : String) :
    Option (List ScanResult) :=
  (m.find? (fun kv => kv.1 == s)).map Prod.snd

/-- Node tag, from the `"type": "device"` / `"type": "subnet"` fields of
the node objects built by `generate_interactive_visualization`. -/
inductive NodeKind
  | device
  | subnet
deriving DecidableEq, Repr

/-- A node of the graph handed to the renderer.  Device nodes carry the
record's os, subnet and port fields; subnet nodes only an id. -/
structure GraphNode where
  id : String
  kind : NodeKind
  os : Option String
  subnet : Option String
  ports : Option (List Nat)
deriving DecidableEq, Repr

/-- An edge `{"source": subnet, "target": ip}` of the graph. -/
structure GraphEdge where
  source : String
  target : String
deriving DecidableEq, Repr

/-- The `{"nodes": ..., "links": ...}` structure handed to the renderer. -/
structure Graph where
  nodes : List GraphNode
  links : List GraphEdge
deriving DecidableEq, Repr

/-- The device node built for one record. -/
def deviceNode (r : ScanResult) : GraphNode :=
  { id := r.ip, kind := NodeKind.device, os := some r.os_guess,
    subnet := some r.subnet, ports := some r.open_ports }

/-- The node built for one subnet key. -/
def subnetNode (s : String) : GraphNode :=
  { id := s, kind := NodeKind.subnet, os := none, subnet := none, ports := none }

/-- The graph data of `generate_interactive_visualization`
(src/rust-network-mapper-adv-viz.rs): device nodes from `results.iter()`,
subnet nodes from `subnets.keys()`, concatenated as
`[nodes, subnet_nodes].concat()`, and one link per record with the
record's subnet as source and its ip as target. -/
def buildGraph (results : List ScanResult) : Graph :=
  { nodes := results.map deviceNode
      ++ (groupBySubnet results).map (fun kv => subnetNode kv.1)
    links := results.map (fun r => { source := r.subnet, target := r.ip }) }

/-- Reading a bucket of a cons cell of the association list. -/
theorem lookupGroup_cons (k : String) (v : List ScanResult)
    (rest : List (String × List ScanResult)) (s : String) :
    lookupGroup ((k, v) :: rest) s = if k == s then some v else lookupGroup rest s := by
  unfold lookupGroup
  by_cases h : (k == s) = true
  · rw [List.find?_cons_of_pos _ (by simpa using h)]
    simp [h]
  · rw [List.find?_cons_of_neg _ (by simpa using h)]
    simp [h]

/-- Inserting a record touches exactly its subnet's bucket, appending
the record at the end of that bucket. -/
theorem lookupGroup_insertGrouped (m : List (String × List ScanResult))
    (r : ScanResult) (s : String) :
    lookupGroup (insertGrouped m r) s =
      if r.subnet == s then some ((lookupGroup m s).getD [] ++ [r])
      else lookupGroup m s := by
  induction m with
  | nil =>
    show lookupGroup [(r.subnet, [r])] s = _
    rw [lookupGroup_cons]
    by_cases h : (r.subnet == s) = true <;> simp [h, lookupGroup]
  | cons kv rest ih =>
    obtain ⟨k, v⟩ := kv
    by_cases hk : (k == r.subnet) = true
    · have hk2 : k = r.subnet := by simpa using hk
      subst hk2
      simp only [insertGrouped, beq_self_eq_true, if_true]
      simp only [lookupGroup_cons]
      by_cases hs : (r.subnet == s) = true <;> simp [hs]
    · simp only [insertGrouped, hk, if_false]
      simp only [lookupGroup_cons]
      by_cases hs : (k == s) = true
      · have hrs : (r.subnet == s) = false := by
          cases hq : r.subnet == s
          · rfl
          · exfalso
            apply hk
            have hq2 : r.subnet = s := by simpa using hq
            have hs2 : k = s := by simpa using hs
            simp [hq2, hs2]
        simp [lookupGroup_cons, hs, hrs]
      · simp [lookupGroup_cons, hs, ih]

/-- Running the grouping loop over a record list extends each bucket by
exactly the records of that subnet, in input order. -/
theorem lookupGroup_foldl (l : List ScanResult) (m : List (String × List ScanResult))
    (s : String) :
    lookupGroup (l.foldl insertGrouped m) s =
      if (l.filter (fun r => r.subnet == s)).isEmpty then lookupGroup m s
      else some ((lookupGroup m s).getD [] ++ l.filter (fun r => r.subnet == s)) := by
  induction l generalizing m with
  | nil => simp
  | cons r l ih =>
    rw [List.foldl_cons, ih]
    by_cases hr : (r.subnet == s) = true
    · rw [List.filter_cons_of_pos (by simpa using hr)]
      rw [lookupGroup_insertGrouped]
      simp only [hr, if_true]
      by_cases hl : (l.filter (fun r => r.subnet == s)).isEmpty
      · have hl2 : l.filter (fun r => r.subnet == s) = [] := by simpa [List.isEmpty_iff] using hl
        simp [hl, hl2]
      · simp only [hl, if_false]
        have : (r :: l.filter (fun r => r.subnet == s)).isEmpty = false := rfl
        simp [this]
    · rw [List.filter_cons_of_neg (by simpa using hr)]
      rw [lookupGroup_insertGrouped]
      simp [hr]

/-- Inserting a record leaves the key list unchanged when its subnet is
already a key, and appends its subnet as a new last key otherwise. -/
theorem keys_insertGrouped (m : List (String × List ScanResult)) (r : ScanResult) :
    (insertGrouped m r).map Prod.fst =
      if (m.map Prod.fst).contains r.subnet then m.map Prod.fst
      else m.map Prod.fst ++ [r.subnet] := by
  induction m with
  | nil => simp [insertGrouped]
  | cons kv rest ih =>
    obtain ⟨k, v⟩ := kv
    by_cases hk : (k == r.subnet) = true
    · have hk2 : k = r.subnet := by simpa using hk
      subst hk2
      simp [insertGrouped]
    · have hk3 : (r.subnet == k) = false := by
        cases hq : r.subnet == k
        · rfl
        · exfalso
          apply hk
          have : r.subnet = k := by simpa using hq
          simp [this]
      simp only [insertGrouped, List.map_cons, List.contains_cons, hk3, Bool.false_or]
      rw [if_neg hk, List.map_cons, ih]
      by_cases hc : ((rest.map Prod.fst).contains r.subnet) = true
      · rw [if_pos hc, if_pos hc]
      · rw [if_neg hc, if_neg hc]
        rfl

/-- Membership in the key list of the grouping. -/
theorem mem_keys_foldl (l : List ScanResult) (m : List (String × List ScanResult))
    (s : String) :
    s ∈ (l.foldl insertGrouped m).map Prod.fst
      ↔ s ∈ m.map Prod.fst ∨ s ∈ l.map ScanResult.subnet := by
  induction l generalizing m with
  | nil => simp
  | cons r l ih =>
    rw [List.foldl_cons, ih, keys_insertGrouped]
    by_cases hc : ((m.map Prod.fst).contains r.subnet) = true
    · rw [if_pos hc]
      have hmem : r.subnet ∈ m.map Prod.fst := by simpa using hc
      simp only [List.map_cons, List.mem_cons]
      constructor
      · intro h
        cases h with
        | inl h => exact Or.inl h
        | inr h => exact Or.inr (Or.inr h)
      · rintro (h | h | h)
        · exact Or.inl h
        · exact Or.inl (h ▸ hmem)
        · exact Or.inr h
    · rw [if_neg hc]
      simp only [List.mem_append, List.mem_singleton, List.map_cons, List.mem_cons]
      tauto

/-- The key list of the grouping has no duplicates. -/
theorem nodup_keys_foldl (l : List ScanResult) (m : List (String × List ScanResult))
    (h : (m.map Prod.fst).Nodup) : ((l.foldl insertGrouped m).map Prod.fst).Nodup := by
  induction l generalizing m with
  | nil => exact h
  | cons r l ih =>
    rw [List.foldl_cons]
    apply ih
    rw [keys_insertGrouped]
    by_cases hc : ((m.map Prod.fst).contains r.subnet) = true
    · rw [if_pos hc]
      exact h
    · rw [if_neg hc]
      have hnm : r.subnet ∉ m.map Prod.fst := by simpa using hc
      simp [List.nodup_append, h, hnm]

/-- C10: in the subnet grouping built by
`generate_interactive_visualization`, the bucket of every subnet string
`s` is exactly the subsequence (the filter) of the input record list
whose subnet equals `s`, in input order; consequently any pairwise
ordering of the input list — in particular ascending address order — is
inherited by every bucket. -/
theorem subnet_group_is_filter (results : List ScanResult) (s : String) :
    lookupGroup (groupBySubnet results) s =
      (if (results.filter (fun r => r.subnet == s)).isEmpty then none
       else some (results.filter (fun r => r.subnet == s)))
    ∧ (∀ R : ScanResult → ScanResult → Prop, results.Pairwise R →
        ∀ g, lookupGroup (groupBySubnet results) s = some g → g.Pairwise R) := by
  have hmain : lookupGroup (groupBySubnet results) s =
      (if (results.filter (fun r => r.subnet == s)).isEmpty then none
       else some (results.filter (fun r => r.subnet == s))) := by
    unfold groupBySubnet
    rw [lookupGroup_foldl]
    by_cases hemp : (results.filter (fun r => r.subnet == s)).isEmpty
    · rw [if_pos hemp, if_pos hemp]
      rfl
    · rw [if_neg hemp, if_neg hemp]
      simp [lookupGroup]
  refine ⟨hmain, ?_⟩
  intro R hR g hg
  rw [hmain] at hg
  by_cases hemp : (results.filter (fun r => r.subnet == s)).isEmpty
  · rw [if_pos hemp] at hg
    cases hg
  · rw [if_neg hemp] at hg
    injection hg with hg
    subst hg
    exact hR.filter _

/-- C10 witness: grouping the single-record list `[sample22]` and
reading bucket `0.0.0.0/24` returns exactly that record, with pairwise
ordering inherited. -/
theorem subnet_group_is_filter_witness :
    lookupGroup (groupBySubnet [sample22]) "0.0.0.0/24" = some [sample22]
    ∧ [sample22].Pairwise (fun a b => a.ip < b.ip) := by
  have h := (subnet_group_is_filter [sample22] "0.0.0.0/24").1
  refine ⟨?_, by simp⟩
  rw [h]
  rfl

/-- Keys of the grouping are exactly the subnets occurring among the records. -/
theorem mem_keys_groupBySubnet (results : List ScanResult) (s : String) :
    s ∈ (groupBySubnet results).map Prod.fst ↔ s ∈ results.map ScanResult.subnet := by
  unfold groupBySubnet
  rw [mem_keys_foldl]
  simp

/-- The grouping never lists a subnet key twice. -/
theorem nodup_keys_groupBySubnet (results : List ScanResult) :
    ((groupBySubnet results).map Prod.fst).Nodup := by
  unfold groupBySubnet
  exact nodup_keys_foldl results [] (by simp)

/-- Composing the kind test with the device-node builder is constantly true. -/
theorem deviceNode_is_device :
    ((fun n => n.kind == NodeKind.device) ∘ deviceNode) = fun _ : ScanResult => true :=
  funext fun _ => rfl

/-- A device node is never tagged subnet. -/
theorem deviceNode_not_subnet :
    ((fun n => n.kind == NodeKind.subnet) ∘ deviceNode) = fun _ : ScanResult => false :=
  funext fun _ => rfl

/-- A subnet node is never tagged device. -/
theorem subnetNode_not_device :
    ((fun n => n.kind == NodeKind.device) ∘ (fun kv : String × List ScanResult => subnetNode kv.1))
      = fun _ => false :=
  funext fun _ => rfl

/-- Composing the kind test with the subnet-node builder is constantly true. -/
theorem subnetNode_is_subnet :
    ((fun n => n.kind == NodeKind.subnet) ∘ (fun kv : String × List ScanResult => subnetNode kv.1))
      = fun _ => true :=
  funext fun _ => rfl

/-- C6: the graph handed to the renderer has one device node per record
(in order, carrying the record's address as id), one subnet node per
distinct subnet value of the records (no duplicates), every node tagged
device or subnet, and exactly one link per record, each link's source
being its target record's subnet. -/
theorem graph_structure_spec (results : List ScanResult) :
    ((buildGraph results).nodes.filter (fun n => n.kind == NodeKind.device)).map GraphNode.id
        = results.map ScanResult.ip
    ∧ (∀ s, (∃ n ∈ (buildGraph results).nodes, n.kind = NodeKind.subnet ∧ n.id = s)
        ↔ s ∈ results.map ScanResult.subnet)
    ∧ (((buildGraph results).nodes.filter
        (fun n => n.kind == NodeKind.subnet)).map GraphNode.id).Nodup
    ∧ (∀ n ∈ (buildGraph results).nodes,
        n.kind = NodeKind.device ∨ n.kind = NodeKind.subnet)
    ∧ (buildGraph results).links.length = results.length
    ∧ (∀ ed ∈ (buildGraph results).links,
        ∃ r ∈ results, ed.source = r.subnet ∧ ed.target = r.ip)
    ∧ (∀ r ∈ results,
        ({ source := r.subnet, target := r.ip } : GraphEdge) ∈ (buildGraph results).links) := by
  refine ⟨?_, ?_, ?_, ?_, ?_, ?_, ?_⟩
  · simp only [buildGraph, List.filter_append, List.filter_map, deviceNode_is_device,
      subnetNode_not_device, List.filter_true, List.filter_false, List.map_nil,
      List.map_map, List.append_nil]
    rfl
  · intro s
    simp only [buildGraph, List.mem_append]
    constructor
    · rintro ⟨n, hn | hn, hkind, hid⟩
      · obtain ⟨r, hr, hrn⟩ := List.mem_map.mp hn
        rw [← hrn] at hkind
        cases hkind
      · obtain ⟨kv, hkv, hkvn⟩ := List.mem_map.mp hn
        have hmem : kv.1 ∈ (groupBySubnet results).map Prod.fst := List.mem_map_of_mem _ hkv
        have hk := (mem_keys_groupBySubnet results kv.1).mp hmem
        rw [← hkvn] at hid
        exact hid ▸ hk
    · intro hs
      have hmem : s ∈ (groupBySubnet results).map Prod.fst :=
        (mem_keys_groupBySubnet results s).mpr hs
      obtain ⟨kv, hkv, hkvs⟩ := List.mem_map.mp hmem
      refine ⟨subnetNode kv.1, Or.inr (List.mem_map_of_mem _ hkv), rfl, hkvs⟩
  · have hform : ((buildGraph results).nodes.filter
        (fun n => n.kind == NodeKind.subnet)).map GraphNode.id
        = (groupBySubnet results).map Prod.fst := by
      simp only [buildGraph, List.filter_append, List.filter_map, deviceNode_not_subnet,
        subnetNode_is_subnet, List.filter_true, List.filter_false, List.map_nil,
        List.map_map, List.nil_append]
      rfl
    rw [hform]
    exact nodup_keys_groupBySubnet results
  · intro n hn
    simp only [buildGraph, List.mem_append] at hn
    cases hn with
    | inl hn =>
      obtain ⟨r, _, hrn⟩ := List.mem_map.mp hn
      exact Or.inl (by rw [← hrn]; rfl)
    | inr hn =>
      obtain ⟨kv, _, hkvn⟩ := List.mem_map.mp hn
      exact Or.inr (by rw [← hkvn]; rfl)
  · simp [buildGraph]
  · intro ed hed
    simp only [buildGraph] at hed
    obtain ⟨r, hr, hred⟩ := List.mem_map.mp hed
    exact ⟨r, hr, by rw [← hred], by rw [← hred]⟩
  · intro r hr
    simp only [buildGraph]
    exact List.mem_map_of_mem _ hr

/-- C6 witness: the graph of the one-record list `[sample22]` has its
only link sourced at that record's subnet and targeted at its address. -/
theorem graph_structure_spec_witness :
    (buildGraph [sample22]).links.length = 1
    ∧ (∃ r ∈ [sample22],
        ({ source := "0.0.0.0/24", target := "0.0.0.0" } : GraphEdge).source = r.subnet
        ∧ ({ source := "0.0.0.0/24", target := "0.0.0.0" } : GraphEdge).target = r.ip) := by
  have h := graph_structure_spec [sample22]
  refine ⟨h.2.2.2.2.1, ?_⟩
  apply h.2.2.2.2.2.1
  rw [show (buildGraph [sample22]).links
      = [{ source := "0.0.0.0/24", target := "0.0.0.0" }] from rfl]
  simp

/-- C2: the set of addresses the loop examines is exactly the closed
interval from `s` to `e` under numeric ordering, enumerated ascending;
for `s ≤ e` it has `e − s + 1` elements and the emitted record list is
never longer; for `s > e` the scan set is empty and both the record
list and the renderer graph come out empty, with no error. -/
theorem scan_set_exact (probe : Nat → Nat → ProbeOutcome) (s e : Nat) :
    (∀ a, a ∈ scanRange s e ↔ s ≤ a ∧ a ≤ e)
    ∧ List.Pairwise (· < ·) (scanRange s e)
    ∧ (s ≤ e → (scanRange s e).length = e - s + 1)
    ∧ (runScanOk probe s e).length ≤ (scanRange s e).length
    ∧ (e < s → runScanOk probe s e = []
        ∧ (buildGraph (runScanOk probe s e)).nodes = []
        ∧ (buildGraph (runScanOk probe s e)).links = []) := by
  refine ⟨?_, ?_, ?_, ?_, ?_⟩
  · intro a
    unfold scanRange
    rw [List.mem_range'_1]
    omega
  · exact List.pairwise_lt_range' s (e + 1 - s)
  · intro hse
    simp only [scanRange, List.length_range']
    omega
  · exact List.length_filterMap_le _ _
  · intro hlt
    have hempty : scanRange s e = [] := by
      unfold scanRange
      have : e + 1 - s = 0 := by omega
      rw [this]
      rfl
    have hres : runScanOk probe s e = [] := by
      unfold runScanOk
      rw [hempty]
      rfl
    exact ⟨hres, by rw [hres]; rfl, by rw [hres]; rfl⟩

/-- C2 witness: the range from 1 to 3 has the three addresses 1, 2, 3
and, under the all-refused oracle, at most three emitted records. -/
theorem scan_set_exact_witness :
    (2 ∈ scanRange 1 3 ↔ 1 ≤ 2 ∧ 2 ≤ 3) ∧ (scanRange 1 3).length = 3 - 1 + 1 := by
  have h := scan_set_exact probeAllClosed 1 3
  exact ⟨h.1 2, h.2.2.1 (by decide)⟩

/-- C1: however the spawned tasks' completions interleave (any
permutation `perm` of the scanned addresses as completion order), the
collection loop awaits tasks in submission order and produces the same
list, whose records are in strictly ascending numeric address order
(their address strings are the renderings of the ascending address list
`scanIps`). -/
theorem results_sorted_regardless_of_completion (probe : Nat → Nat → ProbeOutcome)
    (s e : Nat) (perm : List Nat) (hperm : perm.Perm (scanRange s e)) :
    joinSubmissionOrder (completionLog probe perm) (scanRange s e)
        = some (runScanOk probe s e)
    ∧ List.Pairwise (· < ·) (scanIps probe s e)
    ∧ (runScanOk probe s e).map ScanResult.ip = (scanIps probe s e).map ipToString := by
  refine ⟨?_, ?_, ?_⟩
  · apply joinSubmissionOrder_eq
    intro ip hip
    exact awaitTask_completionLog probe perm ip (hperm.mem_iff.mpr hip)
  · exact (List.pairwise_lt_range' s (e + 1 - s)).filter _
  · exact runScanOk_map_ip probe (scanRange s e)

/-- C1 witness: scanning 0–1 with the tasks finishing in reverse order
(address 1 first) still joins to the submission-order result list. -/
theorem results_sorted_regardless_of_completion_witness :
    joinSubmissionOrder (completionLog probeAllClosed [1, 0]) (scanRange 0 1)
        = some (runScanOk probeAllClosed 0 1)
    ∧ List.Pairwise (· < ·) (scanIps probeAllClosed 0 1)
    ∧ (runScanOk probeAllClosed 0 1).map ScanResult.ip
        = (scanIps probeAllClosed 0 1).map ipToString :=
  results_sorted_regardless_of_completion probeAllClosed 0 1 [1, 0] (by decide)

/-- Any abnormally terminated task makes the collection loop return its
error. -/
theorem collectResults_error (ts : List (Except TaskError (Option ScanResult)))
    (h : ∃ t ∈ ts, ∃ err, t = Except.error err) :
    ∃ err, collectResults ts = Except.error err := by
  induction ts with
  | nil =>
    obtain ⟨t, ht, _⟩ := h
    cases ht
  | cons t ts ih =>
    cases t with
    | error err => exact ⟨err, rfl⟩
    | ok o =>
      have hrest : ∃ t ∈ ts, ∃ err, t = Except.error err := by
        obtain ⟨t2, ht2, err, herr⟩ := h
        cases List.mem_cons.mp ht2 with
        | inl heq =>
          subst herr
          cases heq
        | inr hmem => exact ⟨t2, hmem, err, herr⟩
      obtain ⟨err, herr⟩ := ih hrest
      cases o with
      | none => exact ⟨err, herr⟩
      | some r =>
        refine ⟨err, ?_⟩
        show (collectResults ts).map (fun l => r :: l) = Except.error err
        rw [herr]
        rfl

/-- A successful collection had no abnormally terminated task. -/
theorem collectResults_ok (ts : List (Except TaskError (Option ScanResult)))
    (l : List ScanResult) (h : collectResults ts = Except.ok l) :
    ∀ t ∈ ts, ∀ err, t ≠ Except.error err := by
  induction ts generalizing l with
  | nil =>
    intro t ht
    cases ht
  | cons t ts ih =>
    intro t2 ht2 err heq
    subst heq
    cases t with
    | error err2 => cases h
    | ok o =>
      cases List.mem_cons.mp ht2 with
      | inl heq2 => cases heq2
      | inr hmem =>
        cases o with
        | none => exact ih l h (Except.error err) hmem err rfl
        | some r =>
          have hmap : (collectResults ts).map (fun l => r :: l) = Except.ok l := h
          cases hts : collectResults ts with
          | error err2 =>
            rw [hts] at hmap
            cases hmap
          | ok l2 => exact ih l2 hts (Except.error err) hmem err rfl

/-- A fault-free run collects exactly the filtered `scan_host` values. -/
theorem collectResults_all_ok (probe : Nat → Nat → ProbeOutcome) (l : List Nat) :
    collectResults (l.map (fun ip => Except.ok (scan_host probe ip)))
      = Except.ok (l.filterMap (scan_host probe)) := by
  induction l with
  | nil => rfl
  | cons ip l ih =>
    cases hip : scan_host probe ip with
    | none =>
      show collectResults (Except.ok (scan_host probe ip) :: _) = _
      rw [hip]
      show collectResults _ = Except.ok (List.filterMap _ (ip :: l))
      rw [List.filterMap_cons, hip]
      exact ih
    | some r =>
      show collectResults (Except.ok (scan_host probe ip) :: _) = _
      rw [hip]
      show (collectResults _).map _ = Except.ok (List.filterMap _ (ip :: l))
      rw [List.filterMap_cons, hip, ih]
      rfl

/-- C8: if any task of the run terminates abnormally, the whole run
returns an error — no result list is emitted, not even a partial one —
and conversely a run that returns a list had only normally terminated
tasks and the list is the full fault-free one. -/
theorem task_failure_aborts_run (probe : Nat → Nat → ProbeOutcome)
    (fault : Nat → Option TaskError) (s e : Nat) :
    ((∃ ip ∈ scanRange s e, fault ip ≠ none) →
        ∃ err, runScan probe fault s e = Except.error err)
    ∧ (∀ l, runScan probe fault s e = Except.ok l →
        (∀ ip ∈ scanRange s e, fault ip = none) ∧ l = runScanOk probe s e) := by
  constructor
  · intro ⟨ip, hip, hf⟩
    apply collectResults_error
    refine ⟨taskResult probe fault ip, List.mem_map_of_mem _ hip, ?_⟩
    unfold taskResult
    cases hfi : fault ip with
    | none => exact absurd hfi hf
    | some err => exact ⟨err, rfl⟩
  · intro l hl
    have hnofault : ∀ ip ∈ scanRange s e, fault ip = none := by
      intro ip hip
      have := collectResults_ok _ l hl (taskResult probe fault ip)
        (List.mem_map_of_mem _ hip)
      unfold taskResult at this
      cases hfi : fault ip with
      | none => rfl
      | some err =>
        exfalso
        apply this err
        rw [hfi]
    refine ⟨hnofault, ?_⟩
    have hmap : (scanRange s e).map (taskResult probe fault)
        = (scanRange s e).map (fun ip => Except.ok (scan_host probe ip)) := by
      apply List.map_congr_left
      intro ip hip
      unfold taskResult
      rw [hnofault ip hip]
    unfold runScan at hl
    rw [hmap, collectResults_all_ok] at hl
    injection hl with hl
    exact hl.symm

/-- An injected fault on address 0 alone. -/
def faultAt0 : Nat → Option TaskError :=
  fun ip => if ip = 0 then some TaskError.joinFault else none

/-- C8 witness: with a fault injected on address 0, the run over 0–1
returns an error instead of a partial list. -/
theorem task_failure_aborts_run_witness :
    ∃ err, runScan probeAllClosed faultAt0 0 1 = Except.error err :=
  (task_failure_aborts_run probeAllClosed faultAt0 0 1).1 ⟨0, by decide, by decide⟩

/-- C7: a produced record's address is the dotted-quad rendering of its
host, its subnet is the first three octets of that address joined with
`.0/24` (both share the literal three-octet prefix), and its OS guess
is the classifier applied to its own open-port list — the derived
fields are fixed at construction. -/
theorem subnet_os_derived_from_fields (probe : Nat → Nat → ProbeOutcome) (ip : Nat)
    (r : ScanResult) (h : scan_host probe ip = some r) :
    r.ip = ipToString ip
    ∧ r.subnet = toString (octet 0 ip) ++ "." ++ toString (octet 1 ip) ++ "." ++
        toString (octet 2 ip) ++ ".0/24"
    ∧ (∃ pre : String, r.ip = pre ++ toString (octet 3 ip) ∧ r.subnet = pre ++ "0/24")
    ∧ r.os_guess = guess_os r.open_ports := by
  rw [scan_host_eq] at h
  by_cases hemp : (ports_to_scan.filter (port_probe probe ip)).isEmpty
  · simp [hemp] at h
  · simp only [hemp, if_false] at h
    injection h with h
    subst h
    refine ⟨rfl, rfl, ?_, rfl⟩
    refine ⟨toString (octet 0 ip) ++ "." ++ toString (octet 1 ip) ++ "." ++
      toString (octet 2 ip) ++ ".", rfl, ?_⟩
    show toString (octet 0 ip) ++ "." ++ toString (octet 1 ip) ++ "." ++
      toString (octet 2 ip) ++ ".0/24"
      = toString (octet 0 ip) ++ "." ++ toString (octet 1 ip) ++ "." ++
        toString (octet 2 ip) ++ "." ++ "0/24"
    conv_rhs => rw [String.append_assoc]
    rfl

/-- C7 witness: the record for host `0.0.0.0` under `probe22`
instantiates all four derived-field equations. -/
theorem subnet_os_derived_from_fields_witness :
    sample22.ip = ipToString 0
    ∧ sample22.subnet = toString (octet 0 0) ++ "." ++ toString (octet 1 0) ++ "." ++
        toString (octet 2 0) ++ ".0/24"
    ∧ (∃ pre : String,
        sample22.ip = pre ++ toString (octet 3 0) ∧ sample22.subnet = pre ++ "0/24")
    ∧ sample22.os_guess = guess_os sample22.open_ports :=
  subnet_os_derived_from_fields probe22 0 sample22 (by decide)

/-- The capacity `let max_concurrent_scans = 100` of `main`. -/
def max_concurrent_scans : Nat := 100

/-- Events of the admission gate: a Host Prober run (identified by its
task id) acquires a permit before `scan_host` starts, and its permit is
dropped — released — when the run ends, normally or not. -/
inductive SemEvent
  | acquire (t : Nat)
  | release (t : Nat)
deriving DecidableEq, Repr

/-- State of `Semaphore::new(max_concurrent_scans)`: the free permit
count plus the ids of the Host Prober runs currently holding a permit
(executing). -/
structure SemState where
  available : Nat
  running : List Nat
deriving DecidableEq, Repr

/-- Counting-semaphore semantics of `semaphore.acquire()` and of the
permit drop at task scope end: an acquire only fires when a permit is
free (otherwise the task stays suspended — no step), a release only for
a run actually holding a permit, and it always returns that permit. -/
def semStep (st : SemState) : SemEvent → Option SemState
  | SemEvent.acquire t =>
    if 0 < st.available ∧ t ∉ st.running then
      some { available := st.available - 1, running := t :: st.running }
    else none
  | SemEvent.release t =>
    if t ∈ st.running then
      some { available := st.available + 1, running := st.running.erase t }
    else none

/-- The gate as `main` creates it: all permits free, nothing running. -/
def semInit : SemState := { available := max_concurrent_scans, running := [] }

/-- Replaying a whole event schedule from a state. -/
def semRun (st : SemState) : List SemEvent → Option SemState
  | [] => some st
  | ev :: evs =>
    match semStep st ev with
    | none => none
    | some st2 => semRun st2 evs

/-- One gate step preserves the permit-accounting invariant. -/
theorem semStep_inv (st st2 : SemState) (ev : SemEvent)
    (hinv : st.available + st.running.length = max_concurrent_scans ∧ st.running.Nodup)
    (h : semStep st ev = some st2) :
    st2.available + st2.running.length = max_concurrent_scans ∧ st2.running.Nodup := by
  cases ev with
  | acquire t =>
    simp only [semStep] at h
    by_cases hc : 0 < st.available ∧ t ∉ st.running
    · rw [if_pos hc] at h
      injection h with h
      subst h
      refine ⟨?_, ?_⟩
      · simp only [List.length_cons]
        omega
      · exact List.Nodup.cons hc.2 hinv.2
    · rw [if_neg hc] at h
      cases h
  | release t =>
    simp only [semStep] at h
    by_cases hc : t ∈ st.running
    · rw [if_pos hc] at h
      injection h with h
      subst h
      have hlen : (st.running.erase t).length = st.running.length - 1 :=
        List.length_erase_of_mem hc
      have hpos : 0 < st.running.length := List.length_pos_of_mem hc
      refine ⟨?_, hinv.2.erase t⟩
      simp only [hlen]
      omega
    · rw [if_neg hc] at h
      cases h

/-- The invariant holds along any accepted schedule. -/
theorem semRun_inv (tr : List SemEvent) (st st2 : SemState)
    (hinv : st.available + st.running.length = max_concurrent_scans ∧ st.running.Nodup)
    (h : semRun st tr = some st2) :
    st2.available + st2.running.length = max_concurrent_scans ∧ st2.running.Nodup := by
  induction tr generalizing st with
  | nil =>
    injection h with h
    subst h
    exact hinv
  | cons ev evs ih =>
    unfold semRun at h
    cases hstep : semStep st ev with
    | none =>
      rw [hstep] at h
      cases h
    | some stm =>
      rw [hstep] at h
      exact ih stm (semStep_inv st stm ev hinv hstep) h

/-- C9: along every event schedule the gate accepts from its initial
state, the number of Host Prober runs holding a permit never exceeds
the configured capacity of 100, and free permits plus running scans
always account for the full capacity (each release returns exactly the
permit its run acquired). -/
theorem concurrency_bound_invariant (tr : List SemEvent) (st : SemState)
    (h : semRun semInit tr = some st) :
    st.running.length ≤ max_concurrent_scans
    ∧ st.available + st.running.length = max_concurrent_scans := by
  have hinv := semRun_inv tr semInit st (by simp [semInit]) h
  exact ⟨by omega, hinv.1⟩

/-- C9 witness: after a single accepted acquire the gate holds one
running scan (within capacity) and 99 free permits. -/
theorem concurrency_bound_invariant_witness :
    ({ available := 99, running := [0] } : SemState).running.length ≤ max_concurrent_scans
    ∧ ({ available := 99, running := [0] } : SemState).available
        + ({ available := 99, running := [0] } : SemState).running.length
        = max_concurrent_scans :=
  concurrency_bound_invariant [SemEvent.acquire 0]
    { available := 99, running := [0] } (by decide)
